import Mathlib

set_option maxHeartbeats 1000000
set_option linter.unusedVariables false

/-!
Verification development for
`examples/example11/fracture_opening_convergence_tests_sneddon.py`.

The Python script sets up a Sneddon through-crack convergence test: it
builds a fracture geometry, asks external collaborators (mesher,
discretizer, sparse solver) for a displacement field, extracts the
numerical aperture at paired fracture faces, evaluates the analytical
elliptical aperture profile, and aggregates L2 / max / interior error
norms over a sequence of mesh resolutions.

This file gives a shallow embedding of the script's own code (geometry
construction, index arithmetic, aperture extraction, error norms, the
convergence loop with its positivity assertion) over the real numbers.
External collaborators (meshing, discretization, the sparse linear
solve, plotting, export) are modelled as inputs: a grid record, a
displacement vector `u : Nat -> Real`, or a per-resolution simulation
outcome.
-/

/-- A point in 3-space (a column of a numpy `3 x n` coordinate array). -/
structure Vec3 where
  x : ℝ
  y : ℝ
  z : ℝ

/-- Euclidean distance between two points; this is what
`cg.dist_point_pointset` computes for each column of the point set. -/
noncomputable def dist3 (p q : Vec3) : ℝ :=
  Real.sqrt ((p.x - q.x) ^ 2 + (p.y - q.y) ^ 2 + (p.z - q.z) ^ 2)

/-- The part of the higher-dimensional grid `g_h` that the script reads:
dimension, cell count, face geometry and the fracture face pairing
`frac_pairs` (a `2 x n` index array, here a list of column pairs).
Produced by the external mesher. -/
structure Grid where
  dim : ℕ
  num_cells : ℕ
  face_centers : ℕ → Vec3
  face_areas : ℕ → ℝ
  frac_pairs : List (ℕ × ℕ)

/-- `np.arange(start, stop, step)` on naturals: `start, start+step, ...`
strictly below `stop` (empty when `stop <= start`). -/
def arange (start stop step : ℕ) : List ℕ :=
  (List.range ((stop - start + step - 1) / step)).map fun k => start + k * step

/-- `compute_eta(g_h)`: distance from each first-row fracture face
center `g_h.face_centers[:, g_h.frac_pairs[0]]` to the `center` point. -/
noncomputable def compute_eta (g : Grid) (center : Vec3) : List ℝ :=
  g.frac_pairs.map fun pr => dist3 (g.face_centers pr.1) center

/-- `n_f = g_h.num_cells * dim_h` (offset of fracture dofs in `u`). -/
def n_f (g : Grid) : ℕ := g.num_cells * g.dim

/-- `last_ind = dim_h - 1` (y component in 2d, z in 3d). -/
def last_ind (g : Grid) : ℕ := g.dim - 1

/-- `g_h.frac_pairs.shape[1]`, the number of fracture face pairs. -/
def num_pairs (g : Grid) : ℕ := g.frac_pairs.length

/-- `frac_ind_1 = np.arange(n_f + last_ind, n_f + n_pairs * dim_h, dim_h)`. -/
def frac_ind_1 (g : Grid) : List ℕ :=
  arange (n_f g + last_ind g) (n_f g + num_pairs g * g.dim) g.dim

/-- `frac_ind_2 = np.arange(last_ind + n_f + n_pairs * dim_h,
last_ind + n_f + frac_pairs.size * dim_h, dim_h)`; `frac_pairs.size`
is `2 * n_pairs`. -/
def frac_ind_2 (g : Grid) : List ℕ :=
  arange (last_ind g + n_f g + num_pairs g * g.dim)
    (last_ind g + n_f g + 2 * num_pairs g * g.dim) g.dim

/-- `x_ind_1 = np.arange(n_f, n_f + n_pairs * dim_h, dim_h)`. -/
def x_ind_1 (g : Grid) : List ℕ :=
  arange (n_f g) (n_f g + num_pairs g * g.dim) g.dim

/-- `x_ind_2 = np.arange(n_f + n_pairs * dim_h, n_f + 2 * n_pairs * dim_h, dim_h)`. -/
def x_ind_2 (g : Grid) : List ℕ :=
  arange (n_f g + num_pairs g * g.dim) (n_f g + 2 * num_pairs g * g.dim) g.dim

/-- The constant factor of the analytical profile:
`cons = (1 - nu) / mu * p0 * a * 2`, further multiplied by `2 / pi`
when the `penny` flag is set. -/
noncomputable def analytical_cons (mu nu p0 a : ℝ) (penny : Bool) : ℝ :=
  if penny then (1 - nu) / mu * p0 * a * 2 * (2 / Real.pi)
  else (1 - nu) / mu * p0 * a * 2

/-- The aperture list built by `analytical_displacements`:
`apertures = cons * np.sqrt(1 - np.power(eta / a, 2))`, one entry per
fracture face pair. -/
noncomputable def analytical_apertures (g : Grid) (center : Vec3)
    (mu nu p0 a : ℝ) (penny : Bool) : List ℝ :=
  (compute_eta g center).map fun e =>
    analytical_cons mu nu p0 a penny * Real.sqrt (1 - (e / a) ^ 2)

/-- `analytical_displacements(gb, a)`: returns the analytical aperture
profile and the arc-length coordinates `eta`.  (The dof index arrays of
the Python return value are the separate definitions `frac_ind_1`,
`frac_ind_2`, `x_ind_1`, `x_ind_2`; the moduli `mu`, `nu`, the traction
`p0` and the `penny` flag, read from globals and node data in Python,
are parameters here.) -/
noncomputable def analytical_displacements (g : Grid) (center : Vec3)
    (mu nu p0 a : ℝ) (penny : Bool) : List ℝ × List ℝ :=
  (analytical_apertures g center mu nu p0 a penny, compute_eta g center)

/-- `np.isclose(x, y)` with the numpy defaults `rtol = 1e-05`,
`atol = 1e-08`: `|x - y| <= atol + rtol * |y|`. -/
def np_isclose (x y : ℝ) : Prop := |x - y| ≤ 1 / 10 ^ 8 + 1 / 10 ^ 5 * |y|

open Classical in
/-- The aperture-extraction part of `solve(gb, dim_h)` (lines 195-218).
The sparse linear solve is external, so the displacement vector `u` is
an input.  When `beta` is close to `pi/2` the aperture is the absolute
difference of the `last_ind` displacement component at paired faces;
when `beta` is close to `pi/4` it is the Euclidean norm of the
difference across the two in-plane components; with any other `beta`
the Python local `aperture` is never assigned and the function fails
(`none`).  (The analytical aperture and `eta`, also returned by the
Python function, come from `analytical_displacements`.) -/
noncomputable def solve (g : Grid) (beta : ℝ) (u : ℕ → ℝ) : Option (List ℝ) :=
  if np_isclose beta (Real.pi / 2) then
    some (List.zipWith (fun i j => |u j - u i|) (frac_ind_1 g) (frac_ind_2 g))
  else if np_isclose beta (Real.pi / 4) then
    some (List.zipWith
      (fun p q => Real.sqrt ((u p.1 - u q.1) ^ 2 + (u p.2 - u q.2) ^ 2))
      ((frac_ind_1 g).zip (x_ind_1 g)) ((frac_ind_2 g).zip (x_ind_2 g)))
  else none

/-- `np.sum(np.multiply(area, np.square(val)))`, the weighted sum of
squares under the norm's square root. -/
noncomputable def wsq (area val : List ℝ) : ℝ :=
  (List.zipWith (fun ar v => ar * v ^ 2) area val).sum

/-- `L2_norm(val, area) = np.sqrt(np.sum(np.multiply(area, np.square(val))))`. -/
noncomputable def L2_norm (val area : List ℝ) : ℝ := Real.sqrt (wsq area val)

/-- numpy elementwise subtraction of two equal-length arrays. -/
noncomputable def sub_arrays (x y : List ℝ) : List ℝ :=
  List.zipWith (fun p q => p - q) x y

/-- `L2_error(v_ref, v_approx, area) = L2_norm(v_approx - v_ref, area) / L2_norm(v_ref, area)`. -/
noncomputable def L2_error (v_ref v_approx area : List ℝ) : ℝ :=
  L2_norm (sub_arrays v_approx v_ref) area / L2_norm v_ref area

open Classical in
/-- numpy boolean mask indexing `v[p(key)]`: keep the entries of `v`
whose corresponding `key` entry satisfies `p` (the script uses
`i = eta < 0.9 * a` as the mask). -/
noncomputable def bool_index (p : ℝ → Prop) : List ℝ → List ℝ → List ℝ
  | k :: ks, v :: vs =>
    if p k then v :: bool_index p ks vs else bool_index p ks vs
  | _, _ => []

/-- `np.max` of an array (the script only applies it to nonempty
aperture arrays; on `[]` numpy raises, here the value is `0`). -/
noncomputable def np_max : List ℝ → ℝ
  | [] => 0
  | v :: vs => vs.foldl max v

/-- What one iteration of the convergence loop obtains from the
external collaborators before computing error norms: the numerical
aperture (from `solve`), the analytical aperture and `eta` (from
`analytical_displacements`), and the paired-face areas
`g_h.face_areas[g_h.frac_pairs[0]]`. -/
structure SimOut where
  aperture : List ℝ
  aperture_a : List ℝ
  eta : List ℝ
  areas : List ℝ

/-- The accumulator lists of `run_multiple_and_plot`, one entry
appended per mesh resolution.  (`fracture_cells` and the plotting state
are omitted: they feed only the plot.) -/
structure Records where
  errors : List ℝ
  errors_I : List ℝ
  errors_max : List ℝ
  errors_el : List ℝ
  apertures : List (List ℝ)
  apertures_a : List (List ℝ)

/-- The empty accumulators initialised at the top of
`run_multiple_and_plot`. -/
def init_records : Records := ⟨[], [], [], [], [], []⟩

/-- Lines 252-262 of the loop body: `e = |aperture_a - aperture| / max(aperture_a)`
and the seven `append` calls (global L2 error, integral error,
max pointwise error, interior error over the mask `eta < 0.9 * a`,
and the two aperture profiles). -/
noncomputable def append_records (a : ℝ) (r : Records) (s : SimOut) : Records :=
  let e := (sub_arrays s.aperture_a s.aperture).map fun d => |d| / np_max s.aperture_a
  { errors := r.errors ++ [L2_error s.aperture_a s.aperture s.areas]
    errors_I := r.errors_I ++
      [L2_norm (sub_arrays s.aperture_a s.aperture) s.areas /
        (s.areas.sum * np_max s.aperture_a)]
    errors_max := r.errors_max ++ [np_max e]
    errors_el := r.errors_el ++
      [L2_error (bool_index (fun t => t < 0.9 * a) s.eta s.aperture_a)
        (bool_index (fun t => t < 0.9 * a) s.eta s.aperture)
        (bool_index (fun t => t < 0.9 * a) s.eta s.areas)]
    apertures := r.apertures ++ [s.aperture]
    apertures_a := r.apertures_a ++ [s.aperture_a] }

open Classical in
/-- The convergence loop of `run_multiple_and_plot(nc, function)`:
for each resolution, obtain the simulation outcome (grid build,
parameter assignment and solve, all external, are folded into `sim`),
run `assert np.all(aperture > 0)`, and only then append the error
records.  A failed assertion aborts the whole run; the
`Except.error` payload is the accumulator state at the abort, i.e. the
records of the earlier resolutions.  (Plotting and export after the
loop are external.) -/
noncomputable def run_multiple_and_plot {α : Type} (a : ℝ) (sim : α → SimOut) :
    List α → Records → Except Records Records
  | [], r => Except.ok r
  | item :: rest, r =>
    if ∀ x ∈ (sim item).aperture, 0 < x then
      run_multiple_and_plot a sim rest (append_records a r (sim item))
    else Except.error r

/-- `fracture_2d(length, height, a, beta, fracture)`: an empty fracture
list, or one segment with endpoints
`(length/2 -+ a*sin(beta), height/2 -+ a*cos(beta))`. -/
noncomputable def fracture_2d (length height a beta : ℝ) (fracture : Bool) :
    List ((ℝ × ℝ) × (ℝ × ℝ)) :=
  if fracture then
    [((length / 2 - a * Real.sin beta, height / 2 - a * Real.cos beta),
      (length / 2 + a * Real.sin beta, height / 2 + a * Real.cos beta))]
  else []

/-! Shared lemmas about the weighted sum of squares and boolean mask
indexing. -/

lemma wsq_nil_left (v : List ℝ) : wsq [] v = 0 := rfl

lemma wsq_nil_right (area : List ℝ) : wsq area [] = 0 := by
  cases area <;> rfl

lemma wsq_cons (ar v : ℝ) (ars vs : List ℝ) :
    wsq (ar :: ars) (v :: vs) = ar * v ^ 2 + wsq ars vs := by
  simp [wsq]

lemma wsq_nonneg (area v : List ℝ) (h : ∀ x ∈ area, 0 ≤ x) : 0 ≤ wsq area v := by
  induction area generalizing v with
  | nil => simp [wsq_nil_left]
  | cons ar ars ih =>
    cases v with
    | nil => simp [wsq_nil_right]
    | cons x xs =>
      rw [wsq_cons]
      have h1 : 0 ≤ ar * x ^ 2 :=
        mul_nonneg (h ar (List.mem_cons_self ar ars)) (sq_nonneg x)
      have h2 : 0 ≤ wsq ars xs := ih xs fun y hy => h y (List.mem_cons_of_mem ar hy)
      linarith

lemma wsq_sub_self (area v : List ℝ) : wsq area (sub_arrays v v) = 0 := by
  induction v generalizing area with
  | nil => simp [sub_arrays, wsq_nil_right]
  | cons x xs ih =>
    cases area with
    | nil => simp [wsq_nil_left]
    | cons ar ars =>
      have : sub_arrays (x :: xs) (x :: xs) = (x - x) :: sub_arrays xs xs := rfl
      rw [this, wsq_cons, ih]
      ring

lemma wsq_map_mul (c : ℝ) (area v : List ℝ) :
    wsq (area.map fun t => c * t) v = c * wsq area v := by
  induction area generalizing v with
  | nil => simp [wsq_nil_left]
  | cons ar ars ih =>
    cases v with
    | nil => simp [wsq_nil_right]
    | cons x xs =>
      simp only [List.map_cons]
      rw [wsq_cons, wsq_cons, ih]
      ring

lemma bool_index_nil_key (p : ℝ → Prop) (v : List ℝ) : bool_index p [] v = [] := by
  cases v <;> rfl

lemma bool_index_nil_val (p : ℝ → Prop) (k : List ℝ) : bool_index p k [] = [] := by
  cases k <;> rfl

lemma bool_index_congr (p q : ℝ → Prop) (key v : List ℝ)
    (h : ∀ k ∈ key, p k ↔ q k) : bool_index p key v = bool_index q key v := by
  induction key generalizing v with
  | nil => simp [bool_index_nil_key]
  | cons k ks ih =>
    cases v with
    | nil => simp [bool_index_nil_val]
    | cons x xs =>
      have hk : p k ↔ q k := h k (List.mem_cons_self k ks)
      have ht : ∀ j ∈ ks, p j ↔ q j := fun j hj => h j (List.mem_cons_of_mem k hj)
      by_cases hp : p k
      · rw [show bool_index p (k :: ks) (x :: xs) = x :: bool_index p ks xs from by
          simp [bool_index, hp]]
        rw [show bool_index q (k :: ks) (x :: xs) = x :: bool_index q ks xs from by
          simp [bool_index, hk.mp hp]]
        rw [ih xs ht]
      · have hq : ¬ q k := fun h2 => hp (hk.mpr h2)
        rw [show bool_index p (k :: ks) (x :: xs) = bool_index p ks xs from by
          simp [bool_index, hp]]
        rw [show bool_index q (k :: ks) (x :: xs) = bool_index q ks xs from by
          simp [bool_index, hq]]
        exact ih xs ht

lemma mem_bool_index (p : ℝ → Prop) (key v : List ℝ) (x : ℝ)
    (hx : x ∈ bool_index p key v) : x ∈ v := by
  induction key generalizing v with
  | nil => rw [bool_index_nil_key] at hx; exact absurd hx (List.not_mem_nil x)
  | cons k ks ih =>
    cases v with
    | nil => rw [bool_index_nil_val] at hx; exact absurd hx (List.not_mem_nil x)
    | cons y ys =>
      by_cases hp : p k
      · rw [show bool_index p (k :: ks) (y :: ys) = y :: bool_index p ks ys from by
          simp [bool_index, hp]] at hx
        rcases List.mem_cons.mp hx with h1 | h1
        · exact h1 ▸ List.mem_cons_self y ys
        · exact List.mem_cons_of_mem y (ih ys h1)
      · rw [show bool_index p (k :: ks) (y :: ys) = bool_index p ks ys from by
          simp [bool_index, hp]] at hx
        exact List.mem_cons_of_mem y (ih ys hx)

lemma bool_index_sub_arrays (p : ℝ → Prop) (key x y : List ℝ)
    (hx : key.length = x.length) (hy : key.length = y.length) :
    bool_index p key (sub_arrays x y) =
      sub_arrays (bool_index p key x) (bool_index p key y) := by
  induction key generalizing x y with
  | nil => simp [bool_index_nil_key, sub_arrays]
  | cons k ks ih =>
    cases x with
    | nil => exact absurd hx (by simp)
    | cons a as =>
      cases y with
      | nil => exact absurd hy (by simp)
      | cons b bs =>
        have hx2 : ks.length = as.length := by simpa using hx
        have hy2 : ks.length = bs.length := by simpa using hy
        have hsub : sub_arrays (a :: as) (b :: bs) = (a - b) :: sub_arrays as bs := rfl
        by_cases hp : p k
        · rw [hsub]
          rw [show bool_index p (k :: ks) ((a - b) :: sub_arrays as bs)
              = (a - b) :: bool_index p ks (sub_arrays as bs) from by simp [bool_index, hp]]
          rw [show bool_index p (k :: ks) (a :: as) = a :: bool_index p ks as from by
            simp [bool_index, hp]]
          rw [show bool_index p (k :: ks) (b :: bs) = b :: bool_index p ks bs from by
            simp [bool_index, hp]]
          rw [show sub_arrays (a :: bool_index p ks as) (b :: bool_index p ks bs)
              = (a - b) :: sub_arrays (bool_index p ks as) (bool_index p ks bs) from rfl]
          rw [ih as bs hx2 hy2]
        · rw [hsub]
          rw [show bool_index p (k :: ks) ((a - b) :: sub_arrays as bs)
              = bool_index p ks (sub_arrays as bs) from by simp [bool_index, hp]]
          rw [show bool_index p (k :: ks) (a :: as) = bool_index p ks as from by
            simp [bool_index, hp]]
          rw [show bool_index p (k :: ks) (b :: bs) = bool_index p ks bs from by
            simp [bool_index, hp]]
          exact ih as bs hx2 hy2

lemma wsq_bool_index_split (p : ℝ → Prop) (key area v : List ℝ)
    (ha : key.length = area.length) (hv : key.length = v.length) :
    wsq (bool_index p key area) (bool_index p key v)
      + wsq (bool_index (fun t => ¬ p t) key area) (bool_index (fun t => ¬ p t) key v)
      = wsq area v := by
  induction key generalizing area v with
  | nil =>
    cases area with
    | nil => simp [bool_index_nil_key, wsq_nil_left]
    | cons x xs => exact absurd ha (by simp)
  | cons k ks ih =>
    cases area with
    | nil => exact absurd ha (by simp)
    | cons ar ars =>
      cases v with
      | nil => exact absurd hv (by simp)
      | cons x xs =>
        have ha2 : ks.length = ars.length := by simpa using ha
        have hv2 : ks.length = xs.length := by simpa using hv
        by_cases hp : p k
        · rw [show bool_index p (k :: ks) (ar :: ars) = ar :: bool_index p ks ars from by
            simp [bool_index, hp]]
          rw [show bool_index p (k :: ks) (x :: xs) = x :: bool_index p ks xs from by
            simp [bool_index, hp]]
          rw [show bool_index (fun t => ¬ p t) (k :: ks) (ar :: ars)
              = bool_index (fun t => ¬ p t) ks ars from by simp [bool_index, hp]]
          rw [show bool_index (fun t => ¬ p t) (k :: ks) (x :: xs)
              = bool_index (fun t => ¬ p t) ks xs from by simp [bool_index, hp]]
          rw [wsq_cons, wsq_cons, ← ih ars xs ha2 hv2]
          ring
        · rw [show bool_index p (k :: ks) (ar :: ars) = bool_index p ks ars from by
            simp [bool_index, hp]]
          rw [show bool_index p (k :: ks) (x :: xs) = bool_index p ks xs from by
            simp [bool_index, hp]]
          rw [show bool_index (fun t => ¬ p t) (k :: ks) (ar :: ars)
              = ar :: bool_index (fun t => ¬ p t) ks ars from by simp [bool_index, hp]]
          rw [show bool_index (fun t => ¬ p t) (k :: ks) (x :: xs)
              = x :: bool_index (fun t => ¬ p t) ks xs from by simp [bool_index, hp]]
          rw [wsq_cons, wsq_cons, ← ih ars xs ha2 hv2]
          ring

lemma np_isclose_refl (x : ℝ) : np_isclose x x := by
  rw [np_isclose]
  rw [sub_self, abs_zero]
  positivity

lemma not_np_isclose_zero_pi_div_two : ¬ np_isclose 0 (Real.pi / 2) := by
  intro h
  rw [np_isclose, zero_sub, abs_neg,
    abs_of_nonneg (by positivity : (0:ℝ) ≤ Real.pi / 2)] at h
  have h3 := Real.pi_gt_three
  norm_num at h
  linarith

lemma not_np_isclose_zero_pi_div_four : ¬ np_isclose 0 (Real.pi / 4) := by
  intro h
  rw [np_isclose, zero_sub, abs_neg,
    abs_of_nonneg (by positivity : (0:ℝ) ≤ Real.pi / 4)] at h
  have h3 := Real.pi_gt_three
  norm_num at h
  linarith

lemma sqrt_ratio_mono (nI nT dI dT : ℝ) (hnI : 0 ≤ nI) (hnT : 0 ≤ nT)
    (hdI : 0 < dI) (hdT : 0 ≤ dT) (h : nI * dT ≤ nT * dI) :
    Real.sqrt nI / Real.sqrt dI ≤ Real.sqrt (nI + nT) / Real.sqrt (dI + dT) := by
  rw [← Real.sqrt_div hnI, ← Real.sqrt_div (by linarith)]
  apply Real.sqrt_le_sqrt
  rw [div_le_div_iff₀ hdI (by linarith)]
  nlinarith

/-! Concrete fixtures used by the witness theorems: a small grid with a
single fracture face pair, its faces centered at the origin, and a zero
displacement field. -/

/-- A one-pair grid: `dim = 2`, one higher-dimensional cell, every face
centered at the origin with unit area, and a single fracture pair. -/
noncomputable def gW : Grid :=
  { dim := 2
    num_cells := 1
    face_centers := fun _ => ⟨0, 0, 0⟩
    face_areas := fun _ => 1
    frac_pairs := [(0, 1)] }

/-- The origin, used as the fracture center point. -/
def cW : Vec3 := ⟨0, 0, 0⟩

/-- The zero displacement field. -/
noncomputable def uW : ℕ → ℝ := fun _ => 0

lemma compute_eta_gW : compute_eta gW cW = [0] := by
  simp [compute_eta, gW, cW, dist3]

lemma frac_ind_1_gW : frac_ind_1 gW = [3] := by
  simp only [frac_ind_1, arange, n_f, last_ind, num_pairs, gW]
  decide

lemma frac_ind_2_gW : frac_ind_2 gW = [5] := by
  simp only [frac_ind_2, arange, n_f, last_ind, num_pairs, gW]
  decide

lemma solve_gW_vertical : solve gW (Real.pi / 2) uW = some [0] := by
  rw [solve, if_pos (np_isclose_refl (Real.pi / 2)), frac_ind_1_gW, frac_ind_2_gW]
  simp [uW]

/-- Claim C1: for shear modulus `mu > 0`, Poisson ratio `nu`, traction
`p0`, half-length `a > 0` and arc-length positions `eta` with
`|eta| <= a`, the analytical aperture computed by
`analytical_displacements` is `C * sqrt(1 - (eta/a)^2)` with
`C = 2*(1-nu)/mu * p0 * a` in the through-crack case, and that value
further multiplied by `2/pi` when the penny flag is set. -/
theorem analytical_displacements_profile (g : Grid) (c : Vec3)
    (mu nu p0 a : ℝ) (penny : Bool) (hmu : 0 < mu) (ha : 0 < a)
    (hrange : ∀ e ∈ compute_eta g c, |e| ≤ a) :
    (analytical_displacements g c mu nu p0 a penny).1 =
      (compute_eta g c).map fun e =>
        if penny then
          2 * (1 - nu) / mu * p0 * a * Real.sqrt (1 - (e / a) ^ 2) * (2 / Real.pi)
        else 2 * (1 - nu) / mu * p0 * a * Real.sqrt (1 - (e / a) ^ 2) := by
  rw [analytical_displacements, analytical_apertures]
  cases penny with
  | false =>
    refine List.map_congr_left fun e _ => ?_
    rw [analytical_cons]
    simp only [Bool.false_eq_true, if_false]
    ring
  | true =>
    refine List.map_congr_left fun e _ => ?_
    rw [analytical_cons]
    simp only [if_true]
    ring

/-- Witness for C1 at `mu = 1`, `nu = 0`, `p0 = 1`, `a = 1`,
through-crack case, on the one-pair grid whose only `eta` is `0`. -/
theorem analytical_displacements_profile_witness :
    (0:ℝ) < 1 ∧ (∀ e ∈ compute_eta gW cW, |e| ≤ 1) ∧
      (analytical_displacements gW cW 1 0 1 1 false).1 =
        (compute_eta gW cW).map fun e =>
          2 * (1 - 0) / 1 * 1 * 1 * Real.sqrt (1 - (e / 1) ^ 2) := by
  have hr : ∀ e ∈ compute_eta gW cW, |e| ≤ 1 := by
    rw [compute_eta_gW]
    intro e he
    rw [List.mem_singleton] at he
    rw [he]
    norm_num
  refine ⟨one_pos, hr, ?_⟩
  have h := analytical_displacements_profile gW cW 1 0 1 1 false one_pos one_pos hr
  simpa using h

/-- Claim C4: for equal-length arrays with non-negative weights and a
positive weighted reference norm, `L2_error(ref, approx, area)` is
`sqrt(sum area_i * (approx_i - ref_i)^2) / sqrt(sum area_i * ref_i^2)`,
and when `approx = ref` elementwise the result is exactly `0`. -/
theorem L2_error_formula (ref approx area : List ℝ)
    (hl1 : ref.length = approx.length) (hl2 : ref.length = area.length)
    (harea : ∀ x ∈ area, 0 ≤ x) (hden : 0 < wsq area ref) :
    L2_error ref approx area =
        Real.sqrt (wsq area (sub_arrays approx ref)) / Real.sqrt (wsq area ref)
      ∧ L2_error ref ref area = 0 := by
  constructor
  · rw [L2_error, L2_norm, L2_norm]
  · rw [L2_error, L2_norm, wsq_sub_self, Real.sqrt_zero, zero_div]

/-- Witness for C4 at `ref = [1]`, `approx = [2]`, `area = [1]`. -/
theorem L2_error_formula_witness :
    (0:ℝ) < wsq [1] [1] ∧
      L2_error [1] [2] [1] =
        Real.sqrt (wsq [1] (sub_arrays [2] [1])) / Real.sqrt (wsq [1] [1]) ∧
      L2_error [1] [1] [1] = 0 := by
  have hden : (0:ℝ) < wsq [1] [1] := by
    rw [show wsq [(1:ℝ)] [1] = 1 * 1 ^ 2 + wsq [] [] from wsq_cons 1 1 [] []]
    rw [wsq_nil_left]
    norm_num
  have harea : ∀ x ∈ [(1:ℝ)], 0 ≤ x := by
    intro x hx
    rw [List.mem_singleton] at hx
    rw [hx]
    norm_num
  exact ⟨hden,
    (L2_error_formula [1] [2] [1] rfl rfl harea hden).1,
    (L2_error_formula [1] [1] [1] rfl rfl harea hden).2⟩

/-- Claim C7: for every `c > 0` and arrays with nonzero weighted
reference norm, uniformly rescaling the area weights by `c` leaves
`L2_error` unchanged. -/
theorem L2_error_scale_invariant (c : ℝ) (hc : 0 < c)
    (ref approx area : List ℝ) (hden : 0 < wsq area ref) :
    L2_error ref approx (area.map fun t => c * t) = L2_error ref approx area := by
  rw [L2_error, L2_error, L2_norm, L2_norm, L2_norm, L2_norm]
  rw [wsq_map_mul, wsq_map_mul]
  rw [Real.sqrt_mul (le_of_lt hc), Real.sqrt_mul (le_of_lt hc)]
  exact mul_div_mul_left _ _ (ne_of_gt (Real.sqrt_pos.mpr hc))

/-- Witness for C7 at `c = 2`, `ref = [1]`, `approx = [3]`, `area = [1]`. -/
theorem L2_error_scale_invariant_witness :
    (0:ℝ) < 2 ∧ (0:ℝ) < wsq [1] [1] ∧
      L2_error [1] [3] (List.map (fun t => 2 * t) [1]) = L2_error [1] [3] [1] := by
  have hden : (0:ℝ) < wsq [1] [1] := by
    rw [show wsq [(1:ℝ)] [1] = 1 * 1 ^ 2 + wsq [] [] from wsq_cons 1 1 [] []]
    rw [wsq_nil_left]
    norm_num
  exact ⟨two_pos, hden, L2_error_scale_invariant 2 two_pos [1] [3] [1] hden⟩

/-- Claim C8: `fracture_2d` returns an empty fracture list when the
inclusion flag is false, and otherwise exactly one fracture whose two
endpoints are `(length/2, height/2) -+ a*(sin beta, cos beta)`, so the
fracture is centered at the domain midpoint. -/
theorem fracture_2d_endpoints (length height a beta : ℝ) :
    fracture_2d length height a beta false = []
      ∧ fracture_2d length height a beta true =
          [((length / 2 - a * Real.sin beta, height / 2 - a * Real.cos beta),
            (length / 2 + a * Real.sin beta, height / 2 + a * Real.cos beta))]
      ∧ ∀ s ∈ fracture_2d length height a beta true,
          (s.1.1 + s.2.1) / 2 = length / 2 ∧ (s.1.2 + s.2.2) / 2 = height / 2 := by
  refine ⟨rfl, rfl, ?_⟩
  intro s hs
  rw [fracture_2d, if_pos rfl, List.mem_singleton] at hs
  rw [hs]
  constructor <;> ring

lemma zipWith_abs_nonneg (u : ℕ → ℝ) (l1 l2 : List ℕ) :
    ∀ x ∈ List.zipWith (fun i j => |u j - u i|) l1 l2, 0 ≤ x := by
  induction l1 generalizing l2 with
  | nil => simp
  | cons i is ih =>
    cases l2 with
    | nil => simp
    | cons j js =>
      intro x hx
      rw [List.zipWith_cons_cons, List.mem_cons] at hx
      rcases hx with h | h
      · rw [h]
        exact abs_nonneg _
      · exact ih js x h

/-- Counterexample to claim C2 as stated: `beta = 0` is not close to
`pi/2` (it is an oblique inclination per the claim), yet `solve`
produces no aperture at all (`none`) instead of the Euclidean norm of
the displacement difference, because the code only handles inclinations
close to `pi/2` or to `pi/4`. -/
theorem solve_oblique_counterexample :
    ¬ np_isclose 0 (Real.pi / 2) ∧ ¬ np_isclose 0 (Real.pi / 4) ∧
      solve gW 0 uW = none := by
  refine ⟨not_np_isclose_zero_pi_div_two, not_np_isclose_zero_pi_div_four, ?_⟩
  rw [solve, if_neg not_np_isclose_zero_pi_div_two,
    if_neg not_np_isclose_zero_pi_div_four]

/-- Claim C2 (amended): the numerical aperture computed by `solve` is
the absolute difference of the single relevant displacement component
at paired faces when `beta` is close to `pi/2` (the vertical case); it
is the Euclidean norm of the vector difference across both in-plane
displacement components at the paired faces when `beta` is close to
`pi/4`; and for every other inclination `solve` computes no aperture
(the Python local is never assigned, a runtime error). -/
theorem solve_aperture_branches (g : Grid) (beta : ℝ) (u : ℕ → ℝ) :
    (np_isclose beta (Real.pi / 2) →
      solve g beta u =
        some (List.zipWith (fun i j => |u j - u i|) (frac_ind_1 g) (frac_ind_2 g)))
    ∧ (¬ np_isclose beta (Real.pi / 2) → np_isclose beta (Real.pi / 4) →
      solve g beta u =
        some (List.zipWith
          (fun p q => Real.sqrt ((u p.1 - u q.1) ^ 2 + (u p.2 - u q.2) ^ 2))
          ((frac_ind_1 g).zip (x_ind_1 g)) ((frac_ind_2 g).zip (x_ind_2 g))))
    ∧ (¬ np_isclose beta (Real.pi / 2) → ¬ np_isclose beta (Real.pi / 4) →
      solve g beta u = none) := by
  refine ⟨fun h => by rw [solve, if_pos h],
    fun h1 h2 => by rw [solve, if_neg h1, if_pos h2],
    fun h1 h2 => by rw [solve, if_neg h1, if_neg h2]⟩

/-- Witness for the amended C2: the vertical branch taken at
`beta = pi/2` on the one-pair grid. -/
theorem solve_aperture_branches_witness :
    np_isclose (Real.pi / 2) (Real.pi / 2) ∧
      solve gW (Real.pi / 2) uW =
        some (List.zipWith (fun i j => |uW j - uW i|) (frac_ind_1 gW) (frac_ind_2 gW)) :=
  ⟨np_isclose_refl _,
    (solve_aperture_branches gW (Real.pi / 2) uW).1 (np_isclose_refl _)⟩

/-- Claim C9: in the vertical branch the aperture extracted by `solve`
is an absolute value of a displacement difference, hence non-negative
for every real displacement vector; an entry that fails the
strict-positivity assertion can only be exactly zero, never negative. -/
theorem solve_vertical_nonneg (g : Grid) (beta : ℝ) (u : ℕ → ℝ) (l : List ℝ)
    (hbeta : np_isclose beta (Real.pi / 2)) (hl : solve g beta u = some l) :
    ∀ x ∈ l, 0 ≤ x ∧ (¬ 0 < x → x = 0) := by
  rw [solve, if_pos hbeta] at hl
  obtain rfl := Option.some.inj hl
  intro x hx
  have h0 : 0 ≤ x := zipWith_abs_nonneg u (frac_ind_1 g) (frac_ind_2 g) x hx
  exact ⟨h0, fun hnp => le_antisymm (not_lt.mp hnp) h0⟩

/-- Witness for C9 on the one-pair grid with the zero displacement
field: the single extracted aperture is `0`, non-negative, and its
assertion failure is the exactly-zero case. -/
theorem solve_vertical_nonneg_witness :
    np_isclose (Real.pi / 2) (Real.pi / 2) ∧ solve gW (Real.pi / 2) uW = some [0]
      ∧ 0 ≤ (0:ℝ) ∧ (¬ (0:ℝ) < 0 → (0:ℝ) = 0) := by
  have h := solve_vertical_nonneg gW (Real.pi / 2) uW [0] (np_isclose_refl _)
    solve_gW_vertical 0 (List.mem_singleton.mpr rfl)
  exact ⟨np_isclose_refl _, solve_gW_vertical, h.1, h.2⟩

/-- Claim C10: `compute_eta` returns Euclidean distances from the
paired fracture-face centers to the center point, so every `eta` is
non-negative, and the unsigned interior filter `eta < 0.9*a` coincides
with `|eta| < 0.9*a` on its output. -/
theorem compute_eta_nonneg_abs_filter (g : Grid) (c : Vec3) :
    (∀ e ∈ compute_eta g c, 0 ≤ e)
    ∧ ∀ (a : ℝ) (v : List ℝ),
        bool_index (fun t => t < 0.9 * a) (compute_eta g c) v
          = bool_index (fun t => |t| < 0.9 * a) (compute_eta g c) v := by
  have hpos : ∀ e ∈ compute_eta g c, 0 ≤ e := by
    intro e he
    rw [compute_eta] at he
    obtain ⟨pr, hpr, rfl⟩ := List.mem_map.mp he
    simp only [dist3]
    exact Real.sqrt_nonneg _
  refine ⟨hpos, fun a v => ?_⟩
  exact bool_index_congr _ _ _ v fun k hk => by rw [abs_of_nonneg (hpos k hk)]

/-- Witness for C10 on the one-pair grid: its only `eta` entry is `0`,
which is non-negative, and the two filters agree on a sample array. -/
theorem compute_eta_nonneg_abs_filter_witness :
    (0:ℝ) ∈ compute_eta gW cW ∧ 0 ≤ (0:ℝ) ∧
      bool_index (fun t => t < 0.9 * 1) (compute_eta gW cW) [5]
        = bool_index (fun t => |t| < 0.9 * 1) (compute_eta gW cW) [5] := by
  have hmem : (0:ℝ) ∈ compute_eta gW cW := by
    rw [compute_eta_gW]
    exact List.mem_singleton.mpr rfl
  exact ⟨hmem, (compute_eta_nonneg_abs_filter gW cW).1 0 hmem,
    (compute_eta_nonneg_abs_filter gW cW).2 1 [5]⟩

/-- Claim C3: in the convergence loop, a resolution whose extracted
aperture has an entry that is not strictly positive aborts the whole
run via the assertion, before any error norm is appended for that
resolution; the records appended for the earlier resolutions are
exactly the accumulator state carried by the abort. -/
theorem run_multiple_assert_aborts {α : Type} (a : ℝ) (sim : α → SimOut)
    (pre : List α) (bad : α) (rest : List α) (r0 : Records)
    (hpre : ∀ j ∈ pre, ∀ x ∈ (sim j).aperture, 0 < x)
    (hbad : ∃ x ∈ (sim bad).aperture, x ≤ 0) :
    run_multiple_and_plot a sim (pre ++ bad :: rest) r0 =
      Except.error (List.foldl (fun r j => append_records a r (sim j)) r0 pre) := by
  revert hpre
  induction pre generalizing r0 with
  | nil =>
    intro hpre
    have hn : ¬ ∀ x ∈ (sim bad).aperture, 0 < x := by
      obtain ⟨x, hx, hle⟩ := hbad
      intro hall
      exact absurd (hall x hx) (not_lt.mpr hle)
    rw [List.nil_append, run_multiple_and_plot, if_neg hn, List.foldl_nil]
  | cons j js ih =>
    intro hpre
    have hj : ∀ x ∈ (sim j).aperture, 0 < x := hpre j (List.mem_cons_self j js)
    have hjs : ∀ i ∈ js, ∀ x ∈ (sim i).aperture, 0 < x :=
      fun i hi => hpre i (List.mem_cons_of_mem j hi)
    rw [List.cons_append, run_multiple_and_plot, if_pos hj, List.foldl_cons]
    exact ih (append_records a r0 (sim j)) hjs

/-- A synthetic simulation outcome for the C3 witness: resolution `2`
produces a non-positive aperture entry, every other resolution a
positive one. -/
noncomputable def simW : ℕ → SimOut := fun n =>
  { aperture := [if n = 2 then (-1 : ℝ) else 1]
    aperture_a := [1]
    eta := [0]
    areas := [1] }

/-- Witness for C3: with resolutions `[0, 2, 5]`, the first passes the
assertion, the second violates it, and the run aborts carrying exactly
the records appended for the first resolution. -/
theorem run_multiple_assert_aborts_witness :
    (∀ j ∈ [0], ∀ x ∈ (simW j).aperture, 0 < x)
      ∧ (∃ x ∈ (simW 2).aperture, x ≤ 0)
      ∧ run_multiple_and_plot 1 simW ([0] ++ 2 :: [5]) init_records =
          Except.error
            (List.foldl (fun r j => append_records 1 r (simW j)) init_records [0]) := by
  have h1 : ∀ j ∈ [0], ∀ x ∈ (simW j).aperture, 0 < x := by
    intro j hj x hx
    rw [List.mem_singleton] at hj
    subst hj
    simp [simW] at hx
    rw [hx]
    norm_num
  have h2 : ∃ x ∈ (simW 2).aperture, x ≤ 0 := by
    refine ⟨-1, ?_, by norm_num⟩
    simp [simW]
  exact ⟨h1, h2, run_multiple_assert_aborts 1 simW [0] 2 [5] init_records h1 h2⟩

/-- Claim C5: the interior error appended per resolution is the same
`L2_error` evaluated only over the fracture cells with `|eta| < 0.9*a`,
on the corresponding sub-arrays of the analytical aperture, the
numerical aperture and the face areas (the code's unsigned mask
`eta < 0.9*a` agrees with `|eta| < 0.9*a` because `eta` entries are
non-negative distances). -/
theorem append_records_interior_subset (a : ℝ) (r : Records) (s : SimOut)
    (heta : ∀ e ∈ s.eta, 0 ≤ e) :
    (append_records a r s).errors_el = r.errors_el ++
      [L2_error (bool_index (fun t => |t| < 0.9 * a) s.eta s.aperture_a)
        (bool_index (fun t => |t| < 0.9 * a) s.eta s.aperture)
        (bool_index (fun t => |t| < 0.9 * a) s.eta s.areas)] := by
  have hcongr : ∀ v : List ℝ,
      bool_index (fun t => t < 0.9 * a) s.eta v
        = bool_index (fun t => |t| < 0.9 * a) s.eta v :=
    fun v => bool_index_congr _ _ _ v fun k hk => by rw [abs_of_nonneg (heta k hk)]
  simp only [append_records]
  rw [hcongr s.aperture_a, hcongr s.aperture, hcongr s.areas]

/-- Witness for C5 on a one-cell simulation outcome with `eta = [0]`. -/
theorem append_records_interior_subset_witness :
    (∀ e ∈ (simW 0).eta, 0 ≤ e)
      ∧ (append_records 1 init_records (simW 0)).errors_el =
          [] ++ [L2_error
            (bool_index (fun t => |t| < 0.9 * 1) (simW 0).eta (simW 0).aperture_a)
            (bool_index (fun t => |t| < 0.9 * 1) (simW 0).eta (simW 0).aperture)
            (bool_index (fun t => |t| < 0.9 * 1) (simW 0).eta (simW 0).areas)] := by
  have heta : ∀ e ∈ (simW 0).eta, 0 ≤ e := by
    intro e he
    simp [simW] at he
    rw [he]
  exact ⟨heta, append_records_interior_subset 1 init_records (simW 0) heta⟩

/-- Claim C6: when the error mass in the tip region (`|eta| >= 0.9*a`)
dominates, in the sense that the tip region's weighted squared error is
at least as large, relative to its weighted squared reference, as the
interior's, the interior L2 relative error is at most the global L2
relative error. -/
theorem interior_le_global_error (a : ℝ) (ref approx area eta : List ℝ)
    (h1 : eta.length = ref.length) (h2 : eta.length = approx.length)
    (h3 : eta.length = area.length)
    (harea : ∀ x ∈ area, 0 ≤ x)
    (hDin : 0 < wsq (bool_index (fun t => |t| < 0.9 * a) eta area)
      (bool_index (fun t => |t| < 0.9 * a) eta ref))
    (htip : wsq (bool_index (fun t => |t| < 0.9 * a) eta area)
          (bool_index (fun t => |t| < 0.9 * a) eta (sub_arrays approx ref)) *
        wsq (bool_index (fun t => ¬ |t| < 0.9 * a) eta area)
          (bool_index (fun t => ¬ |t| < 0.9 * a) eta ref)
      ≤ wsq (bool_index (fun t => ¬ |t| < 0.9 * a) eta area)
          (bool_index (fun t => ¬ |t| < 0.9 * a) eta (sub_arrays approx ref)) *
        wsq (bool_index (fun t => |t| < 0.9 * a) eta area)
          (bool_index (fun t => |t| < 0.9 * a) eta ref)) :
    L2_error (bool_index (fun t => |t| < 0.9 * a) eta ref)
        (bool_index (fun t => |t| < 0.9 * a) eta approx)
        (bool_index (fun t => |t| < 0.9 * a) eta area)
      ≤ L2_error ref approx area := by
  have hareaP : ∀ x ∈ bool_index (fun t => |t| < 0.9 * a) eta area, 0 ≤ x :=
    fun x hx => harea x (mem_bool_index _ _ _ x hx)
  have hareaN : ∀ x ∈ bool_index (fun t => ¬ |t| < 0.9 * a) eta area, 0 ≤ x :=
    fun x hx => harea x (mem_bool_index _ _ _ x hx)
  have hlsub : eta.length = (sub_arrays approx ref).length := by
    rw [sub_arrays, List.length_zipWith, ← h2, ← h1, min_self]
  have hsplitN := wsq_bool_index_split (fun t => |t| < 0.9 * a) eta area
    (sub_arrays approx ref) h3 hlsub
  have hsplitD := wsq_bool_index_split (fun t => |t| < 0.9 * a) eta area ref h3 h1
  have hsubP := bool_index_sub_arrays (fun t => |t| < 0.9 * a) eta approx ref h2 h1
  rw [L2_error, L2_error, L2_norm, L2_norm, L2_norm, L2_norm]
  rw [← hsubP, ← hsplitN, ← hsplitD]
  exact sqrt_ratio_mono _ _ _ _ (wsq_nonneg _ _ hareaP) (wsq_nonneg _ _ hareaN)
    hDin (wsq_nonneg _ _ hareaN) htip

/-- Witness for C6: `eta = [0, 1]` with `a = 1` puts the first cell in
the interior and the second at the tip; the reference is `[1, 1]`, the
approximation `[1, 0]` errs only at the tip, and the interior error
(zero) is at most the global one. -/
theorem interior_le_global_error_witness :
    (∀ x ∈ [(1:ℝ), 1], 0 ≤ x)
      ∧ 0 < wsq (bool_index (fun t => |t| < 0.9 * 1) [0, 1] [1, 1])
          (bool_index (fun t => |t| < 0.9 * 1) [0, 1] [1, 1])
      ∧ L2_error (bool_index (fun t => |t| < 0.9 * 1) [0, 1] [1, 1])
          (bool_index (fun t => |t| < 0.9 * 1) [0, 1] [1, 0])
          (bool_index (fun t => |t| < 0.9 * 1) [0, 1] [1, 1])
        ≤ L2_error [1, 1] [1, 0] [1, 1] := by
  have hsel : ∀ v1 v2 : ℝ,
      bool_index (fun t => |t| < 0.9 * 1) [0, 1] [v1, v2] = [v1] := by
    intro v1 v2
    norm_num [bool_index]
  have hselN : ∀ v1 v2 : ℝ,
      bool_index (fun t => ¬ |t| < 0.9 * 1) [0, 1] [v1, v2] = [v2] := by
    intro v1 v2
    norm_num [bool_index]
  have harea : ∀ x ∈ [(1:ℝ), 1], 0 ≤ x := by
    intro x hx
    rcases List.mem_cons.mp hx with h | h
    · rw [h]
      norm_num
    · rw [List.mem_singleton] at h
      rw [h]
      norm_num
  have hsub : sub_arrays [(1:ℝ), 0] [1, 1] = [0, -1] := by
    norm_num [sub_arrays]
  have hDin : 0 < wsq (bool_index (fun t => |t| < 0.9 * 1) [0, 1] [1, 1])
      (bool_index (fun t => |t| < 0.9 * 1) [0, 1] [1, 1]) := by
    rw [hsel]
    norm_num [wsq]
  refine ⟨harea, hDin, interior_le_global_error 1 [1, 1] [1, 0] [1, 1] [0, 1]
    rfl rfl rfl harea hDin ?_⟩
  simp only [hsub, hsel, hselN]
  norm_num [wsq]
